import Mathlib

set_option maxHeartbeats 1000000

/- Verification development for the cardiac DTI DICOM metadata exporter
   (cdti_data_export.py): a shallow embedding of its value model, header
   flattening, layout classification, field extraction, table assembly
   and export sorting, with the specification claims settled against it. -/

/-- Values stored in a flattened DICOM header, mirroring the Python values
that occur there: strings, integers, lists (a flattened sequence element
becomes a list of dicts; slicing also yields lists), and dicts (flattened
nested datasets). -/
inductive DVal : Type where
  | str : String → DVal
  | int : Int → DVal
  | list : List DVal → DVal
  | dict : List (String × DVal) → DVal

/-- Flattened header: an association list of keyword and value. Keys may
repeat in the representation; lookup takes the latest binding, matching
Python dict assignment where a later assignment overwrites. -/
abbrev FlatHeader := List (String × DVal)

/-- Latest-binding lookup, the value a Python dict holds for a key after
all assignments in order. -/
def lookupLast : FlatHeader → String → Option DVal
  | [], _ => none
  | (k, v) :: rest, key =>
    match lookupLast rest key with
    | some w => some w
    | none => if k = key then some v else none

/-- Subscripting by a string key, as in value[key]: a dict lookup raising
KeyError when the key is absent; any non-dict value raises TypeError. -/
def pyGetKey (v : DVal) (key : String) : Except String DVal :=
  match v with
  | .dict d =>
    match lookupLast d key with
    | some w => .ok w
    | none => .error ("KeyError " ++ key)
  | _ => .error "TypeError"

/-- header[key] on a flattened header. -/
def dictGet (h : FlatHeader) (key : String) : Except String DVal :=
  pyGetKey (.dict h) key

/-- Subscripting by a non-negative integer, as in value[i]: a list indexes
into its elements, a string into its characters (a one-character string),
a dict has no integer keys here (KeyError), an integer raises TypeError. -/
def pyGetIdx (v : DVal) (i : Nat) : Except String DVal :=
  match v with
  | .list xs =>
    match xs[i]? with
    | some x => .ok x
    | none => .error "IndexError"
  | .str s =>
    match s.data[i]? with
    | some c => .ok (.str (String.mk [c]))
    | none => .error "IndexError"
  | .dict _ => .error "KeyError int"
  | .int _ => .error "TypeError"

/-- Slicing value[n:], as applied to the combined date-time field: defined
on strings (by code point) and on lists; other values raise TypeError. -/
def pySliceFrom (v : DVal) (n : Nat) : Except String DVal :=
  match v with
  | .str s => .ok (.str (String.mk (s.data.drop n)))
  | .list xs => .ok (.list (xs.drop n))
  | _ => .error "TypeError"

/-- Slicing value[:n]. -/
def pySliceTo (v : DVal) (n : Nat) : Except String DVal :=
  match v with
  | .str s => .ok (.str (String.mk (s.data.take n)))
  | .list xs => .ok (.list (xs.take n))
  | _ => .error "TypeError"

/-- Structural greatest common divisor with an explicit recursion bound;
the bound is always sufficient because each gcd step strictly shrinks the
first argument. -/
def natGcdAux : Nat → Nat → Nat → Nat
  | 0, _, b => b
  | _ + 1, 0, b => b
  | fuel + 1, a + 1, b => natGcdAux fuel (b % (a + 1)) (a + 1)

/-- Greatest common divisor used to keep exact float values reduced. -/
def natGcd (a b : Nat) : Nat := natGcdAux (a + 1) a b

/-- Exact value of a Python float obtained from a decimal string or an
integer, kept as a fraction in lowest terms with positive denominator.
Decimal-to-binary double rounding is not modelled; every value the claims
exercise is exactly representable as a double. -/
structure PyFloat where
  num : Int
  den : Nat
deriving DecidableEq

/-- Reduced fraction constructor for PyFloat values. -/
def mkPyFloat (n : Int) (d : Nat) : PyFloat :=
  let g := natGcd n.natAbs d
  if g = 0 then ⟨0, 1⟩ else ⟨n.tdiv (g : Int), d / g⟩

/-- Value of a digit run, none when a non-digit occurs. -/
def digitsValAux : List Char → Nat → Option Nat
  | [], acc => some acc
  | c :: rest, acc =>
    if c.isDigit then digitsValAux rest (acc * 10 + (c.toNat - 48))
    else none

/-- Split a character list at its single decimal dot; none when more than
one dot occurs. -/
def splitDot : List Char → Option (List Char × List Char)
  | [] => some ([], [])
  | c :: rest =>
    if c = '.' then
      if rest.contains '.' then none else some ([], rest)
    else
      match splitDot rest with
      | some (ip, fp) => some (c :: ip, fp)
      | none => none

/-- Parse of a decimal string in the form Python float() accepts for the
DICOM strings at hand: an optional sign, digits, at most one dot, at
least one digit overall (exponents and special values never occur). -/
def parseDecimal (s : String) : Option PyFloat :=
  let signBody : Bool × List Char :=
    match s.data with
    | '-' :: rest => (true, rest)
    | '+' :: rest => (false, rest)
    | l => (false, l)
  match splitDot signBody.2 with
  | none => none
  | some (ip, fp) =>
    if ip.length + fp.length = 0 then none
    else
      match digitsValAux ip 0, digitsValAux fp 0 with
      | some i, some f =>
        let n : Nat := i * 10 ^ fp.length + f
        some (mkPyFloat (if signBody.1 then -(n : Int) else (n : Int)) (10 ^ fp.length))
      | _, _ => none

/-- float(value): a string parses as a decimal (ValueError otherwise), an
integer converts exactly, a list or dict raises TypeError. -/
def pyFloat (v : DVal) : Except String PyFloat :=
  match v with
  | .str s =>
    match parseDecimal s with
    | some q => .ok q
    | none => .error "ValueError"
  | .int n => .ok (mkPyFloat n 1)
  | _ => .error "TypeError"

/-- round(x) with no digits argument: the nearest integer to the exact
value, ties going to the even integer. -/
def pythonRound (q : PyFloat) : Int :=
  let f : Int := q.num.fdiv (q.den : Int)
  let rem : Int := q.num - f * (q.den : Int)
  if 2 * rem < (q.den : Int) then f
  else if (q.den : Int) < 2 * rem then f + 1
  else if f % 2 = 0 then f else f + 1

/-- str(value) for the values reaching it in the suffix builder: strings
pass through, integers print in decimal. The textual repr of a list or
dict value is not needed by any claim and is a fixed placeholder. -/
def pyStr (v : DVal) : String :=
  match v with
  | .str s => s
  | .int n => toString n
  | .list _ => "<sequence>"
  | .dict _ => "<dataset>"

/-- Operand check of string concatenation: a str plus a non-str raises
TypeError. -/
def pyAsStr (v : DVal) : Except String String :=
  match v with
  | .str s => .ok s
  | _ => .error "TypeError"

/-- str.replace with the single-character pattern of one space: every
space character becomes an underscore. -/
def replaceSpaces (s : String) : String :=
  String.mk (s.data.map (fun c => if c = ' ' then '_' else c))

/-- get_nominal_interval from cdti_data_export.py: dicom_type 2 reads the
nested per-frame cardiac synchronization field, dicom_type 1 the
top-level NominalInterval, both converted by float(); any other tag falls
through returning None (modelled as ok none, while a raised exception is
modelled as error). -/
def get_nominal_interval (h : FlatHeader) (t : Int) (i : Nat) :
    Except String (Option PyFloat) :=
  if t = 2 then do
    let pf ← dictGet h "PerFrameFunctionalGroupsSequence"
    let frame ← pyGetIdx pf i
    let cs ← pyGetKey frame "CardiacSynchronizationSequence"
    let c0 ← pyGetIdx cs 0
    let rr ← pyGetKey c0 "RRIntervalTimeNominal"
    let q ← pyFloat rr
    return some q
  else if t = 1 then do
    let v ← dictGet h "NominalInterval"
    let q ← pyFloat v
    return some q
  else
    return none

/-- get_acquisition_time: dicom_type 2 strips the leading 8 date
characters from the per-frame combined date-time, dicom_type 1 returns
the top-level AcquisitionTime value verbatim; other tags fall through. -/
def get_acquisition_time (h : FlatHeader) (t : Int) (i : Nat) :
    Except String (Option DVal) :=
  if t = 2 then do
    let pf ← dictGet h "PerFrameFunctionalGroupsSequence"
    let frame ← pyGetIdx pf i
    let fc ← pyGetKey frame "FrameContentSequence"
    let f0 ← pyGetIdx fc 0
    let dt ← pyGetKey f0 "FrameAcquisitionDateTime"
    let stripped ← pySliceFrom dt 8
    return some stripped
  else if t = 1 then do
    let v ← dictGet h "AcquisitionTime"
    return some v
  else
    return none

/-- get_acquisition_date: dicom_type 2 takes the first 8 characters of
the per-frame combined date-time, dicom_type 1 the top-level
AcquisitionDate value verbatim; other tags fall through. -/
def get_acquisition_date (h : FlatHeader) (t : Int) (i : Nat) :
    Except String (Option DVal) :=
  if t = 2 then do
    let pf ← dictGet h "PerFrameFunctionalGroupsSequence"
    let frame ← pyGetIdx pf i
    let fc ← pyGetKey frame "FrameContentSequence"
    let f0 ← pyGetIdx fc 0
    let dt ← pyGetKey f0 "FrameAcquisitionDateTime"
    let datePart ← pySliceTo dt 8
    return some datePart
  else if t = 1 then do
    let v ← dictGet h "AcquisitionDate"
    return some v
  else
    return none

/-- get_nii_file_suffix: both branches of the source build the same
string, series description, underscore, series date, the rounded study
time, underscore, series number, then replace spaces by underscores; the
lookups and operand checks happen in Python evaluation order. -/
def get_nii_file_suffix (h : FlatHeader) (t : Int) (_i : Nat) :
    Except String (Option String) :=
  if t = 2 then do
    let sd ← dictGet h "SeriesDescription"
    let sdStr ← pyAsStr sd
    let sdt ← dictGet h "SeriesDate"
    let sdtStr ← pyAsStr sdt
    let st ← dictGet h "StudyTime"
    let q ← pyFloat st
    let sn ← dictGet h "SeriesNumber"
    let base := sdStr ++ "_" ++ sdtStr ++ toString (pythonRound q) ++ "_" ++ pyStr sn
    return some (replaceSpaces base)
  else if t = 1 then do
    let sd ← dictGet h "SeriesDescription"
    let sdStr ← pyAsStr sd
    let sdt ← dictGet h "SeriesDate"
    let sdtStr ← pyAsStr sdt
    let st ← dictGet h "StudyTime"
    let q ← pyFloat st
    let sn ← dictGet h "SeriesNumber"
    let base := sdStr ++ "_" ++ sdtStr ++ toString (pythonRound q) ++ "_" ++ pyStr sn
    return some (replaceSpaces base)
  else
    return none

/-- Raw pydicom dataset values: scalars, or a sequence (VR of SQ) holding
a list of nested datasets, each dataset a list of elements carrying a
(group, element) tag, a keyword (the empty string for private elements,
which have no public keyword), and a value. An element has VR of SQ
exactly when its value is a sequence; a declared sequence element with a
non-iterable value raises in the source and is not representable here. -/
inductive RawVal : Type where
  | str : String → RawVal
  | int : Int → RawVal
  | sq : List (List ((Nat × Nat) × String × RawVal)) → RawVal

/-- One dataset element: tag address, keyword, value. -/
abbrev RElem := (Nat × Nat) × String × RawVal

/-- One raw dataset, a list of elements. -/
abbrev Dataset := List RElem

/-- Membership and access by (group, element) tag address, as in
ds[0x0019, 0x100C]; a pydicom dataset holds at most one element per tag,
so the first match is the element. -/
def tagLookup : Dataset → Nat × Nat → Option RawVal
  | [], _ => none
  | (tg, _, v) :: rest, t => if tg = t then some v else tagLookup rest t

/-- Keyword membership and access, as in the check of
PerFrameFunctionalGroupsSequence in ds. -/
def dsKeywordLookup : Dataset → String → Option RawVal
  | [], _ => none
  | (_, kw, v) :: rest, k => if kw = k then some v else dsKeywordLookup rest k

/-- Verbatim embedding of a raw scalar value into the flattened value
space, used where the source stores a raw element value directly (the
private diffusion recovery). Those private tags always hold scalars; a
sequence value there would be stored as an unflattened pydicom object in
the source and is embedded by shape only. -/
def embedScalar : RawVal → DVal
  | .str s => .str s
  | .int n => .int n
  | .sq _ => .list []

/-- Manual recovery of the two private diffusion fields by fixed tag
address, assigned after the generic pass (so appended in dict assignment
order). -/
def diffusionInject (ds : Dataset) : List (String × DVal) :=
  (match tagLookup ds (0x0019, 0x100C) with
   | some v => [("DiffusionBValue", embedScalar v)]
   | none => []) ++
  (match tagLookup ds (0x0019, 0x100E) with
   | some v => [("DiffusionGradientDirection", embedScalar v)]
   | none => [])

mutual

/-- Flattening of one element value: a scalar is stored verbatim, a
sequence element becomes the list of its item datasets flattened
recursively, each by the full dictify (private recovery included). -/
def flattenVal : RawVal → DVal
  | .str s => .str s
  | .int n => .int n
  | .sq items => .list (flattenItems items)

/-- Flattening of the items of one sequence element. -/
def flattenItems : List Dataset → List DVal
  | [] => []
  | d :: rest => .dict (flattenElems d ++ diffusionInject d) :: flattenItems rest

/-- The generic pass of dictify: every element is stored under its
keyword, which is the empty string for private elements. -/
def flattenElems : Dataset → List (String × DVal)
  | [] => []
  | (_, kw, v) :: rest => (kw, flattenVal v) :: flattenElems rest

end

/-- dictify from cdti_data_export.py: the generic pass over all elements
followed by the private diffusion recovery. -/
def dictify (ds : Dataset) : FlatHeader :=
  flattenElems ds ++ diffusionInject ds

/-- len(value) as applied to the per-frame element value: a sequence
counts its items, a string its characters, an integer raises TypeError. -/
def pyLen (v : RawVal) : Except String Nat :=
  match v with
  | .sq items => .ok items.length
  | .str s => .ok s.length
  | .int _ => .error "TypeError"

/-- Layout classification from the first dataset: dicom_type 2 with the
per-frame item count when PerFrameFunctionalGroupsSequence is present,
dicom_type 1 with one image per file otherwise. -/
def classify (ds : Dataset) : Except String (Int × Nat) :=
  match dsKeywordLookup ds "PerFrameFunctionalGroupsSequence" with
  | some v =>
    match pyLen v with
    | .error e => .error e
    | .ok n => .ok (2, n)
  | none => .ok (1, 1)

/-- One row of the metadata table, as appended by the assembly loop. -/
structure Row where
  file_name : String
  nominal_interval : Option PyFloat
  acquisition_time : Option DVal
  acquisition_date : Option DVal
  nii_file_suffix : Option String

/-- Sequential effectful map: the loop body runs left to right and the
first raised exception aborts the whole run. -/
def exceptMapM {α β : Type} (f : α → Except String β) : List α → Except String (List β)
  | [] => .ok []
  | a :: rest =>
    match f a with
    | .error e => .error e
    | .ok b =>
      match exceptMapM f rest with
      | .error e => .error e
      | .ok bs => .ok (b :: bs)

/-- One iteration of the inner assembly loop: the four extractor calls on
the current header, tag and frame index, packed as a row. -/
def makeRow (name : String) (h : FlatHeader) (t : Int) (i : Nat) :
    Except String Row := do
  let ni ← get_nominal_interval h t i
  let atime ← get_acquisition_time h t i
  let adate ← get_acquisition_date h t i
  let sfx ← get_nii_file_suffix h t i
  return ⟨name, ni, atime, adate, sfx⟩

/-- The inner loop over frame indices 0 to k-1 for one file. -/
def fileRows (name : String) (h : FlatHeader) (t : Int) (k : Nat) :
    Except String (List Row) :=
  exceptMapM (fun i => makeRow name h t i) (List.range k)

/-- The assembly double loop over files and frame indices. -/
def assembleTable (files : List (String × FlatHeader)) (t : Int) (k : Nat) :
    Except String (List Row) :=
  match exceptMapM (fun f => fileRows f.1 f.2 t k) files with
  | .error e => .error e
  | .ok rss => .ok rss.flatten

/-- get_data_from_dicoms_and_export from the point the sorted file list
is known: reading the first file (an IndexError when the list is empty),
classifying once from it, then assembling rows for every file, each
flattened by dictify, with that single classification. The dcm2niix
invocation, directory handling and file reading are orchestration outside
this model. -/
def runPipeline (files : List (String × Dataset)) : Except String (List Row) :=
  match files with
  | [] => .error "IndexError"
  | f0 :: _ =>
    match classify f0.2 with
    | .error e => .error e
    | .ok tk => assembleTable (files.map (fun f => (f.1, dictify f.2))) tk.1 tk.2

/-- Code point list of a string; Python compares strings by code point. -/
def strKey (s : String) : List Nat := s.data.map Char.toNat

/-- Sort key of one key column value: the sorted columns hold DICOM digit
strings; a run whose key columns held non-strings would raise inside the
pandas sort and is not modelled. -/
def colKey : Option DVal → List Nat
  | some (.str s) => strKey s
  | _ => []

/-- Primary sort key of a row: the acquisition date column. -/
def rowDateKey (r : Row) : List Nat := colKey r.acquisition_date

/-- Secondary sort key of a row: the acquisition time column. -/
def rowTimeKey (r : Row) : List Nat := colKey r.acquisition_time

/-- Strict lexicographic comparison of code point lists. -/
def lexLt : List Nat → List Nat → Bool
  | [], [] => false
  | [], _ :: _ => true
  | _ :: _, [] => false
  | a :: as, b :: bs =>
    if a < b then true else if b < a then false else lexLt as bs

/-- Row comparison realized by the export sort: ascending acquisition
date as primary key, ascending acquisition time as tie-break. -/
def rowLe (a b : Row) : Bool :=
  lexLt (rowDateKey a) (rowDateKey b) ||
    (decide (rowDateKey a = rowDateKey b) && !lexLt (rowTimeKey b) (rowTimeKey a))

/-- The sort of df.sort_values on the two key columns acquisition_date
and acquisition_time: a multi-column pandas sort runs through numpy
lexsort, an indirect stable sort, so it is modelled as a stable merge
sort under the two-key comparison. -/
def exportTable (rows : List Row) : List Row := rows.mergeSort rowLe

/-- The concrete Legacy flattened header of the specification scenario. -/
def legacyHeader : FlatHeader :=
  [("SeriesDescription", .str "DTI SAX"),
   ("SeriesDate", .str "20230101"),
   ("StudyTime", .str "143022.5"),
   ("SeriesNumber", .int 7),
   ("AcquisitionDate", .str "20230101"),
   ("AcquisitionTime", .str "143025"),
   ("NominalInterval", .str "850")]

/-- A raw Legacy dataset carrying the same fields under standard tags. -/
def legacyDs : Dataset :=
  [((0x0008, 0x103E), "SeriesDescription", .str "DTI SAX"),
   ((0x0008, 0x0021), "SeriesDate", .str "20230101"),
   ((0x0008, 0x0030), "StudyTime", .str "143022.5"),
   ((0x0020, 0x0011), "SeriesNumber", .int 7),
   ((0x0008, 0x0022), "AcquisitionDate", .str "20230101"),
   ((0x0008, 0x0032), "AcquisitionTime", .str "143025"),
   ((0x0018, 0x1062), "NominalInterval", .str "850")]

/-- A raw Modern dataset: the per-frame sequence with three items. -/
def modernDs : Dataset :=
  [((0x5200, 0x9230), "PerFrameFunctionalGroupsSequence", .sq [[], [], []])]

/-- A dataset whose only element is private: it has no public keyword. -/
def privateOnlyDs : Dataset := [((0x0033, 0x1010), "", .str "private payload")]

/-- The single-file run used to exercise the row-count theorem. -/
def demoFiles : List (String × Dataset) := [("a.dcm", legacyDs)]

/-- The row the single-file run produces. -/
def demoRow : Row :=
  ⟨"a.dcm", some ⟨850, 1⟩, some (.str "143025"), some (.str "20230101"),
    some "DTI_SAX_20230101143022_7"⟩

/-- Two rows with fully equal sort keys and different file names, used to
exercise sort stability. -/
def rowW1 : Row :=
  ⟨"b.dcm", some ⟨900, 1⟩, some (.str "120000"), some (.str "20230101"), some "S_1"⟩

/-- Second row of the stability pair. -/
def rowW2 : Row :=
  ⟨"a.dcm", some ⟨850, 1⟩, some (.str "120000"), some (.str "20230101"), some "S_1"⟩

/-- Suffix column of an assembly-step result. -/
def suffixOf : Except String Row → Option String
  | .ok r => r.nii_file_suffix
  | .error _ => none

/-- Cons characterization of the lexicographic comparison. -/
theorem lexLt_cons_iff (x y : Nat) (xs ys : List Nat) :
    lexLt (x :: xs) (y :: ys) = true ↔ x < y ∨ (x = y ∧ lexLt xs ys = true) := by
  simp only [lexLt]
  rcases Nat.lt_trichotomy x y with h | h | h
  · simp [h]
  · subst h
    simp [Nat.lt_irrefl]
  · have hne : x ≠ y := by omega
    simp [Nat.lt_asymm h, h, hne]

/-- The lexicographic comparison is irreflexive. -/
theorem lexLt_irrefl : ∀ a : List Nat, lexLt a a = false := by
  intro a
  induction a with
  | nil => rfl
  | cons x xs ih => simp [lexLt, Nat.lt_irrefl, ih]

/-- The lexicographic comparison is transitive. -/
theorem lexLt_trans : ∀ a b c : List Nat,
    lexLt a b = true → lexLt b c = true → lexLt a c = true := by
  intro a
  induction a with
  | nil =>
    intro b c hab hbc
    cases b with
    | nil => simp [lexLt] at hab
    | cons y ys =>
      cases c with
      | nil => simp [lexLt] at hbc
      | cons z zs => simp [lexLt]
  | cons x xs ih =>
    intro b c hab hbc
    cases b with
    | nil => simp [lexLt] at hab
    | cons y ys =>
      cases c with
      | nil => simp [lexLt] at hbc
      | cons z zs =>
        rw [lexLt_cons_iff] at hab hbc ⊢
        rcases hab with h1 | ⟨rfl, h1⟩
        · rcases hbc with h2 | ⟨rfl, h2⟩
          · exact Or.inl (Nat.lt_trans h1 h2)
          · exact Or.inl h1
        · rcases hbc with h2 | ⟨rfl, h2⟩
          · exact Or.inl h2
          · exact Or.inr ⟨rfl, ih ys zs h1 h2⟩

/-- The lexicographic comparison is asymmetric. -/
theorem lexLt_asymm : ∀ a b : List Nat, lexLt a b = true → lexLt b a = false := by
  intro a
  induction a with
  | nil =>
    intro b hab
    cases b with
    | nil => simp [lexLt] at hab
    | cons y ys => simp [lexLt]
  | cons x xs ih =>
    intro b hab
    cases b with
    | nil => simp [lexLt] at hab
    | cons y ys =>
      rw [lexLt_cons_iff] at hab
      cases hba : lexLt (y :: ys) (x :: xs) with
      | false => rfl
      | true =>
        rw [lexLt_cons_iff] at hba
        rcases hab with h1 | ⟨rfl, h1⟩
        · rcases hba with h2 | ⟨e2, h2⟩
          · exact absurd (Nat.lt_trans h1 h2) (Nat.lt_irrefl x)
          · exact absurd h1 (by omega)
        · rcases hba with h2 | ⟨e2, h2⟩
          · exact absurd h2 (Nat.lt_irrefl x)
          · rw [ih ys h1] at h2
            cases h2

/-- Totality of the comparison: two lists are ordered one way, equal, or
ordered the other way. -/
theorem lexLt_trichot : ∀ a b : List Nat,
    lexLt a b = true ∨ a = b ∨ lexLt b a = true := by
  intro a
  induction a with
  | nil =>
    intro b
    cases b with
    | nil => exact Or.inr (Or.inl rfl)
    | cons y ys => exact Or.inl (by simp [lexLt])
  | cons x xs ih =>
    intro b
    cases b with
    | nil => exact Or.inr (Or.inr (by simp [lexLt]))
    | cons y ys =>
      rcases Nat.lt_trichotomy x y with h | h | h
      · exact Or.inl ((lexLt_cons_iff x y xs ys).mpr (Or.inl h))
      · subst h
        rcases ih ys with h2 | h2 | h2
        · exact Or.inl ((lexLt_cons_iff x x xs ys).mpr (Or.inr ⟨rfl, h2⟩))
        · exact Or.inr (Or.inl (by rw [h2]))
        · exact Or.inr (Or.inr ((lexLt_cons_iff x x ys xs).mpr (Or.inr ⟨rfl, h2⟩)))
      · exact Or.inr (Or.inr ((lexLt_cons_iff y x ys xs).mpr (Or.inl h)))

/-- Non-strict comparisons compose: below-or-equal is transitive. -/
theorem lexLt_false_trans : ∀ a b c : List Nat,
    lexLt a b = false → lexLt b c = false → lexLt a c = false := by
  intro a b c h1 h2
  cases h3 : lexLt a c with
  | false => rfl
  | true =>
    rcases lexLt_trichot a b with h4 | h4 | h4
    · simp [h4] at h1
    · subst h4
      simp [h3] at h2
    · have h5 := lexLt_trans b a c h4 h3
      simp [h5] at h2

/-- Unfolding of the row comparison into its two cases. -/
theorem rowLe_iff (a b : Row) :
    rowLe a b = true ↔
      lexLt (rowDateKey a) (rowDateKey b) = true ∨
      (rowDateKey a = rowDateKey b ∧ lexLt (rowTimeKey b) (rowTimeKey a) = false) := by
  simp [rowLe]

/-- The row comparison is transitive. -/
theorem rowLe_trans : ∀ a b c : Row,
    rowLe a b = true → rowLe b c = true → rowLe a c = true := by
  intro a b c hab hbc
  rw [rowLe_iff] at hab hbc ⊢
  rcases hab with h1 | ⟨e1, h1⟩
  · rcases hbc with h2 | ⟨e2, h2⟩
    · exact Or.inl (lexLt_trans _ _ _ h1 h2)
    · exact Or.inl (by rw [← e2]; exact h1)
  · rcases hbc with h2 | ⟨e2, h2⟩
    · exact Or.inl (by rw [e1]; exact h2)
    · exact Or.inr ⟨e1.trans e2, lexLt_false_trans _ _ _ h2 h1⟩

/-- The row comparison is total. -/
theorem rowLe_total : ∀ a b : Row, (rowLe a b || rowLe b a) = true := by
  intro a b
  rw [Bool.or_eq_true, rowLe_iff, rowLe_iff]
  rcases lexLt_trichot (rowDateKey a) (rowDateKey b) with h | h | h
  · exact Or.inl (Or.inl h)
  · cases ht : lexLt (rowTimeKey b) (rowTimeKey a) with
    | false => exact Or.inl (Or.inr ⟨h, rfl⟩)
    | true => exact Or.inr (Or.inr ⟨h.symm, lexLt_asymm _ _ ht⟩)
  · exact Or.inr (Or.inl h)

/-- A successful effectful map yields one output per input. -/
theorem exceptMapM_ok_length {α β : Type} (f : α → Except String β) :
    ∀ (l : List α) (ys : List β), exceptMapM f l = .ok ys → ys.length = l.length := by
  intro l
  induction l with
  | nil =>
    intro ys h
    simp only [exceptMapM] at h
    cases h
    rfl
  | cons a rest ih =>
    intro ys h
    simp only [exceptMapM] at h
    cases hfa : f a with
    | error e => rw [hfa] at h; cases h
    | ok b =>
      rw [hfa] at h
      cases hrest : exceptMapM f rest with
      | error e => rw [hrest] at h; cases h
      | ok bs =>
        rw [hrest] at h
        cases h
        simp [ih bs hrest]

/-- Every output of a successful effectful map comes from some input. -/
theorem exceptMapM_ok_mem {α β : Type} (f : α → Except String β) :
    ∀ (l : List α) (ys : List β), exceptMapM f l = .ok ys →
      ∀ y ∈ ys, ∃ x ∈ l, f x = .ok y := by
  intro l
  induction l with
  | nil =>
    intro ys h y hy
    simp only [exceptMapM] at h
    cases h
    cases hy
  | cons a rest ih =>
    intro ys h y hy
    simp only [exceptMapM] at h
    cases hfa : f a with
    | error e => rw [hfa] at h; cases h
    | ok b =>
      rw [hfa] at h
      cases hrest : exceptMapM f rest with
      | error e => rw [hrest] at h; cases h
      | ok bs =>
        rw [hrest] at h
        cases h
        rcases List.mem_cons.mp hy with rfl | hy2
        · exact ⟨a, List.mem_cons_self a rest, hfa⟩
        · obtain ⟨x, hx, hfx⟩ := ih bs hrest y hy2
          exact ⟨x, List.mem_cons_of_mem a hx, hfx⟩

/-- Each per-file inner loop yields exactly k rows when it succeeds. -/
theorem fileRows_length (name : String) (h : FlatHeader) (t : Int) (k : Nat)
    (rows : List Row) (hr : fileRows name h t k = .ok rows) : rows.length = k := by
  have hl := exceptMapM_ok_length _ (List.range k) rows hr
  simpa using hl

/-- A successful assembly yields files times k rows. -/
theorem assembleTable_length (files : List (String × FlatHeader)) (t : Int) (k : Nat)
    (rows : List Row) (h : assembleTable files t k = .ok rows) :
    rows.length = files.length * k := by
  unfold assembleTable at h
  cases hm : exceptMapM (fun f => fileRows f.1 f.2 t k) files with
  | error e => rw [hm] at h; cases h
  | ok rss =>
    rw [hm] at h
    cases h
    have hlen : rss.length = files.length := exceptMapM_ok_length _ files rss hm
    have hrep : rss.map List.length = List.replicate (rss.map List.length).length k := by
      apply List.eq_replicate_of_mem
      intro b hb
      obtain ⟨r, hr, hrb⟩ := List.mem_map.mp hb
      obtain ⟨x, hx, hfx⟩ := exceptMapM_ok_mem _ files rss hm r hr
      rw [← hrb]
      exact fileRows_length x.1 _ t k r hfx
    calc rss.flatten.length
        = (rss.map List.length).sum := List.length_flatten rss
      _ = (List.replicate (rss.map List.length).length k).sum := by rw [← hrep]
      _ = (rss.map List.length).length * k := by simp [List.sum_replicate, smul_eq_mul]
      _ = files.length * k := by simp [hlen]

/-- A bind whose continuation never yields ok none never yields ok none. -/
theorem bind_ne_ok_none {α β : Type} (e : Except String α)
    (cont : α → Except String (Option β))
    (hk : ∀ a, cont a ≠ .ok none) : (e >>= cont) ≠ .ok none := by
  cases e with
  | error msg => simp [Bind.bind, Except.bind]
  | ok a => simpa [Bind.bind, Except.bind] using hk a

/-- With a recognized tag the nominal-interval extractor never falls
through to the absent value. -/
theorem get_nominal_interval_ne_none (h : FlatHeader) (t : Int) (i : Nat)
    (ht : t = 1 ∨ t = 2) : get_nominal_interval h t i ≠ .ok none := by
  rcases ht with rfl | rfl
  · rw [get_nominal_interval, if_neg (by decide), if_pos rfl]
    apply bind_ne_ok_none
    intro v
    apply bind_ne_ok_none
    intro q
    simp [Pure.pure, Except.pure]
  · rw [get_nominal_interval, if_pos rfl]
    apply bind_ne_ok_none
    intro pf
    apply bind_ne_ok_none
    intro frame
    apply bind_ne_ok_none
    intro cs
    apply bind_ne_ok_none
    intro c0
    apply bind_ne_ok_none
    intro rr
    apply bind_ne_ok_none
    intro q
    simp [Pure.pure, Except.pure]

/-- With a recognized tag the acquisition-time extractor never falls
through to the absent value. -/
theorem get_acquisition_time_ne_none (h : FlatHeader) (t : Int) (i : Nat)
    (ht : t = 1 ∨ t = 2) : get_acquisition_time h t i ≠ .ok none := by
  rcases ht with rfl | rfl
  · rw [get_acquisition_time, if_neg (by decide), if_pos rfl]
    apply bind_ne_ok_none
    intro v
    simp [Pure.pure, Except.pure]
  · rw [get_acquisition_time, if_pos rfl]
    apply bind_ne_ok_none
    intro pf
    apply bind_ne_ok_none
    intro frame
    apply bind_ne_ok_none
    intro fc
    apply bind_ne_ok_none
    intro f0
    apply bind_ne_ok_none
    intro dt
    apply bind_ne_ok_none
    intro stripped
    simp [Pure.pure, Except.pure]

/-- With a recognized tag the acquisition-date extractor never falls
through to the absent value. -/
theorem get_acquisition_date_ne_none (h : FlatHeader) (t : Int) (i : Nat)
    (ht : t = 1 ∨ t = 2) : get_acquisition_date h t i ≠ .ok none := by
  rcases ht with rfl | rfl
  · rw [get_acquisition_date, if_neg (by decide), if_pos rfl]
    apply bind_ne_ok_none
    intro v
    simp [Pure.pure, Except.pure]
  · rw [get_acquisition_date, if_pos rfl]
    apply bind_ne_ok_none
    intro pf
    apply bind_ne_ok_none
    intro frame
    apply bind_ne_ok_none
    intro fc
    apply bind_ne_ok_none
    intro f0
    apply bind_ne_ok_none
    intro dt
    apply bind_ne_ok_none
    intro datePart
    simp [Pure.pure, Except.pure]

/-- With a recognized tag the suffix extractor never falls through to the
absent value. -/
theorem get_nii_file_suffix_ne_none (h : FlatHeader) (t : Int) (i : Nat)
    (ht : t = 1 ∨ t = 2) : get_nii_file_suffix h t i ≠ .ok none := by
  rcases ht with rfl | rfl
  · rw [get_nii_file_suffix, if_neg (by decide), if_pos rfl]
    apply bind_ne_ok_none
    intro sd
    apply bind_ne_ok_none
    intro sdStr
    apply bind_ne_ok_none
    intro sdt
    apply bind_ne_ok_none
    intro sdtStr
    apply bind_ne_ok_none
    intro st
    apply bind_ne_ok_none
    intro q
    apply bind_ne_ok_none
    intro sn
    simp [Pure.pure, Except.pure]
  · rw [get_nii_file_suffix, if_pos rfl]
    apply bind_ne_ok_none
    intro sd
    apply bind_ne_ok_none
    intro sdStr
    apply bind_ne_ok_none
    intro sdt
    apply bind_ne_ok_none
    intro sdtStr
    apply bind_ne_ok_none
    intro st
    apply bind_ne_ok_none
    intro q
    apply bind_ne_ok_none
    intro sn
    simp [Pure.pure, Except.pure]

/-- The keys of the generic flattening pass are the element keywords. -/
theorem flattenElems_keys (ds : Dataset) :
    (flattenElems ds).map Prod.fst = ds.map (fun e => e.2.1) := by
  induction ds with
  | nil => simp [flattenElems]
  | cons e rest ih =>
    obtain ⟨tg, kw, v⟩ := e
    simp [flattenElems, ih]

/-- C1 counterexample: on the concrete Legacy header of the scenario one
assembly step does not produce the row whose suffix is
DTI_SAX_20230101143023_7: round in the source rounds ties to even, so
the study time 143022.5 becomes second 143022, not 143023. -/
theorem claimed_row_refuted :
    makeRow "file.dcm" legacyHeader 1 0 ≠
      Except.ok ⟨"file.dcm", some ⟨850, 1⟩, some (DVal.str "143025"),
        some (DVal.str "20230101"), some "DTI_SAX_20230101143023_7"⟩ := by
  intro hEq
  have h1 : suffixOf (makeRow "file.dcm" legacyHeader 1 0) =
      some "DTI_SAX_20230101143022_7" := rfl
  rw [hEq] at h1
  simp [suffixOf] at h1

/-- C1 amended: one assembly step on the concrete Legacy header produces
the row (file name, 850.0, 143025, 20230101, DTI_SAX_20230101143022_7):
the tied study time 143022.5 is rounded to the even integer second
143022 in the output suffix. -/
theorem assembly_row_concrete :
    makeRow "file.dcm" legacyHeader 1 0 =
      Except.ok ⟨"file.dcm", some ⟨850, 1⟩, some (DVal.str "143025"),
        some (DVal.str "20230101"), some "DTI_SAX_20230101143022_7"⟩ := rfl

/-- C2: the Exporter stably sorts the Metadata Table by (acquisition
date, acquisition time) ascending: the output is a permutation of the
input rows; within the output, two rows with equal date keys appear in
ascending time order, and two rows with different date keys in ascending
date order regardless of their times; and two input rows whose date and
time keys are fully equal keep their original relative order. -/
theorem exporter_sorts_stably (rows : List Row) :
    (exportTable rows).Perm rows ∧
    (∀ a b : Row, [a, b].Sublist (exportTable rows) →
      (rowDateKey a = rowDateKey b → lexLt (rowTimeKey b) (rowTimeKey a) = false) ∧
      (rowDateKey a ≠ rowDateKey b → lexLt (rowDateKey a) (rowDateKey b) = true)) ∧
    (∀ a b : Row, [a, b].Sublist rows → rowDateKey a = rowDateKey b →
      rowTimeKey a = rowTimeKey b → [a, b].Sublist (exportTable rows)) := by
  unfold exportTable
  refine ⟨List.mergeSort_perm rows rowLe, ?_, ?_⟩
  · intro a b hsub
    have hp := List.sorted_mergeSort rowLe_trans rowLe_total rows
    have hle := List.pairwise_iff_forall_sublist.mp hp hsub
    rw [rowLe_iff] at hle
    constructor
    · intro hdeq
      rcases hle with hlt | ⟨heq, hti⟩
      · rw [hdeq] at hlt
        have hirr := lexLt_irrefl (rowDateKey b)
        rw [hlt] at hirr
        cases hirr
      · exact hti
    · intro hdne
      rcases hle with hlt | ⟨heq, hti⟩
      · exact hlt
      · exact absurd heq hdne
  · intro a b hsub hdeq hteq
    apply List.sublist_mergeSort rowLe_trans rowLe_total _ hsub
    refine List.Pairwise.cons ?_ (List.pairwise_singleton _ _)
    intro b2 hb2
    have hb2e : b2 = b := by simpa using hb2
    subst hb2e
    rw [rowLe_iff]
    right
    refine ⟨hdeq, ?_⟩
    rw [hteq]
    exact lexLt_irrefl _

/-- C2 witness: the stability clause applied to a concrete two-row table
with fully equal keys and distinct file names. -/
theorem exporter_sorts_stably_witness :
    [rowW1, rowW2].Sublist (exportTable [rowW1, rowW2]) :=
  (exporter_sorts_stably [rowW1, rowW2]).2.2 rowW1 rowW2 (List.Sublist.refl _) rfl rfl

/-- C3 counterexample: a dataset whose only element is private (it has
no public keyword) does not flatten to an empty header: the generic pass
stores the element under the empty keyword instead of skipping it. -/
theorem private_element_not_skipped :
    dictify privateOnlyDs = [("", DVal.str "private payload")] := by
  simp [privateOnlyDs, dictify, flattenElems, flattenVal, diffusionInject, tagLookup]

/-- C3 amended: the generic pass does not skip keyword-less elements but
stores them under the empty keyword: every key of the flattened header
is the keyword of one of the dataset elements (the empty string for a
private element) or one of the two synthesized diffusion keys. -/
theorem dictify_keys_from_elements (ds : Dataset) (k : String)
    (hk : k ∈ (dictify ds).map Prod.fst) :
    (∃ e ∈ ds, e.2.1 = k) ∨ k = "DiffusionBValue" ∨ k = "DiffusionGradientDirection" := by
  unfold dictify at hk
  rw [List.map_append, List.mem_append] at hk
  rcases hk with hk | hk
  · rw [flattenElems_keys] at hk
    obtain ⟨e, he, hek⟩ := List.mem_map.mp hk
    exact Or.inl ⟨e, he, hek⟩
  · right
    unfold diffusionInject at hk
    rw [List.map_append, List.mem_append] at hk
    rcases hk with hk | hk
    · left
      cases hbv : tagLookup ds (0x0019, 0x100C) with
      | none => simp [hbv] at hk
      | some v => simp [hbv] at hk; exact hk
    · right
      cases hgd : tagLookup ds (0x0019, 0x100E) with
      | none => simp [hgd] at hk
      | some v => simp [hgd] at hk; exact hk

/-- C3 witness: the key SeriesDate of the flattened Legacy dataset comes
from the element with that keyword. -/
theorem dictify_keys_from_elements_witness :
    (∃ e ∈ legacyDs, e.2.1 = "SeriesDate") ∨ "SeriesDate" = "DiffusionBValue" ∨
      "SeriesDate" = "DiffusionGradientDirection" :=
  dictify_keys_from_elements legacyDs "SeriesDate" (by
    simp [legacyDs, dictify, flattenElems, flattenVal, diffusionInject, tagLookup])

/-- C4: when the first file classifies with per-file image count k, a
successful run over the file list yields exactly (number of files) times
k assembled rows, and the exported sorted table has the same count. -/
theorem table_row_count (f0 : String × Dataset) (rest : List (String × Dataset))
    (t : Int) (k : Nat) (rows : List Row)
    (hc : classify f0.2 = .ok (t, k))
    (hrun : runPipeline (f0 :: rest) = .ok rows) :
    rows.length = (f0 :: rest).length * k ∧
    (exportTable rows).length = (f0 :: rest).length * k := by
  simp only [runPipeline, hc] at hrun
  have h1 := assembleTable_length _ t k rows hrun
  rw [List.length_map] at h1
  refine ⟨h1, ?_⟩
  unfold exportTable
  rw [(List.mergeSort_perm rows rowLe).length_eq]
  exact h1

/-- C4 witness: the single-file Legacy run yields one assembled row and
one exported row, matching one file times one image per file. -/
theorem table_row_count_witness :
    ([demoRow] : List Row).length = demoFiles.length * 1 ∧
    (exportTable [demoRow]).length = demoFiles.length * 1 := by
  have hc : classify legacyDs = .ok (1, 1) := rfl
  have hrun : runPipeline demoFiles = .ok [demoRow] := by
    have hd : dictify legacyDs = legacyHeader := by
      simp [legacyDs, legacyHeader, dictify, flattenElems, flattenVal, diffusionInject,
        tagLookup]
    simp only [demoFiles, runPipeline, List.map, hd]
    rfl
  exact table_row_count ("a.dcm", legacyDs) [] 1 1 [demoRow] hc hrun

/-- C5: classification of the first header returns dicom_type 2 with the
item count of the per-frame sequence when the per-frame key is present,
dicom_type 1 with count one when it is absent; classification happens
once, from the first file, and the run assembles every file with that
single classified pair. -/
theorem classifier_rule (ds : Dataset) :
    (∀ items, dsKeywordLookup ds "PerFrameFunctionalGroupsSequence" = some (.sq items) →
      classify ds = .ok (2, items.length)) ∧
    (dsKeywordLookup ds "PerFrameFunctionalGroupsSequence" = none →
      classify ds = .ok (1, 1)) ∧
    (∀ (f0 : String × Dataset) (rest : List (String × Dataset)) (tk : Int × Nat),
      classify f0.2 = .ok tk →
      runPipeline (f0 :: rest) =
        assembleTable ((f0 :: rest).map (fun f => (f.1, dictify f.2))) tk.1 tk.2) := by
  refine ⟨?_, ?_, ?_⟩
  · intro items hit
    simp [classify, hit, pyLen]
  · intro hnone
    simp [classify, hnone]
  · intro f0 rest tk hcl
    simp [runPipeline, hcl]

/-- C5 witness: a Modern dataset with three per-frame items classifies
as (2, 3), and a dataset without the per-frame key as (1, 1). -/
theorem classifier_rule_witness :
    classify modernDs = .ok (2, 3) ∧ classify ([] : Dataset) = .ok (1, 1) :=
  ⟨(classifier_rule modernDs).1 [[], [], []] rfl, (classifier_rule []).2.1 rfl⟩

/-- C6: with a layout tag that is neither Legacy (1) nor Modern (2),
each of the four extractors falls through and returns the absent value
None (ok none) instead of raising an error. -/
theorem extractors_fall_through (h : FlatHeader) (t : Int) (i : Nat)
    (h1 : t ≠ 1) (h2 : t ≠ 2) :
    get_nominal_interval h t i = .ok none ∧
    get_acquisition_time h t i = .ok none ∧
    get_acquisition_date h t i = .ok none ∧
    get_nii_file_suffix h t i = .ok none := by
  refine ⟨?_, ?_, ?_, ?_⟩
  · simp [get_nominal_interval, h1, h2, Pure.pure, Except.pure]
  · simp [get_acquisition_time, h1, h2, Pure.pure, Except.pure]
  · simp [get_acquisition_date, h1, h2, Pure.pure, Except.pure]
  · simp [get_nii_file_suffix, h1, h2, Pure.pure, Except.pure]

/-- C6 witness: the unrecognized tag 0 on the concrete Legacy header. -/
theorem extractors_fall_through_witness :
    get_nominal_interval legacyHeader 0 0 = .ok none ∧
    get_acquisition_time legacyHeader 0 0 = .ok none ∧
    get_acquisition_date legacyHeader 0 0 = .ok none ∧
    get_nii_file_suffix legacyHeader 0 0 = .ok none :=
  extractors_fall_through legacyHeader 0 0 (by decide) (by decide)

/-- C7: the output-suffix extractor is the same function of the header
under both dispatch branches: the Legacy result at any frame index
equals the Modern result at any frame index. -/
theorem suffix_identical_across_layouts (h : FlatHeader) (i j : Nat) :
    get_nii_file_suffix h 1 i = get_nii_file_suffix h 2 j := rfl

/-- C8: under the Legacy tag the frame index is unused: each of the four
extractors returns the same value for any two frame indices. -/
theorem legacy_ignores_frame_index (h : FlatHeader) (i j : Nat) :
    get_nominal_interval h 1 i = get_nominal_interval h 1 j ∧
    get_acquisition_time h 1 i = get_acquisition_time h 1 j ∧
    get_acquisition_date h 1 i = get_acquisition_date h 1 j ∧
    get_nii_file_suffix h 1 i = get_nii_file_suffix h 1 j :=
  ⟨rfl, rfl, rfl, rfl⟩

/-- C9: a run with no input files aborts with an error (the read of the
first file raises IndexError) and produces no metadata table. -/
theorem empty_run_fails : runPipeline [] = .error "IndexError" := rfl

/-- C10: the tag produced by classification is always one of the two
recognized values 1 and 2, and with such a tag none of the four
extractors can return the fall-through absent value, so that branch is
unreachable in the assembly loop. -/
theorem classified_tag_recognized (ds : Dataset) (t : Int) (k : Nat)
    (hc : classify ds = .ok (t, k)) (h : FlatHeader) (i : Nat) :
    (t = 1 ∨ t = 2) ∧
    get_nominal_interval h t i ≠ .ok none ∧
    get_acquisition_time h t i ≠ .ok none ∧
    get_acquisition_date h t i ≠ .ok none ∧
    get_nii_file_suffix h t i ≠ .ok none := by
  have ht : t = 1 ∨ t = 2 := by
    unfold classify at hc
    split at hc
    · split at hc
      · exact absurd hc (by simp)
      · injection hc with h2
        injection h2 with h3 h4
        exact Or.inr h3.symm
    · injection hc with h2
      injection h2 with h3 h4
      exact Or.inl h3.symm
  exact ⟨ht, get_nominal_interval_ne_none h t i ht,
    get_acquisition_time_ne_none h t i ht,
    get_acquisition_date_ne_none h t i ht,
    get_nii_file_suffix_ne_none h t i ht⟩

/-- C10 witness: the empty dataset classifies to tag 1, under which the
four extractors on the concrete Legacy header avoid the fall-through. -/
theorem classified_tag_recognized_witness :
    ((1 : Int) = 1 ∨ (1 : Int) = 2) ∧
    get_nominal_interval legacyHeader 1 0 ≠ .ok none ∧
    get_acquisition_time legacyHeader 1 0 ≠ .ok none ∧
    get_acquisition_date legacyHeader 1 0 ≠ .ok none ∧
    get_nii_file_suffix legacyHeader 1 0 ≠ .ok none :=
  classified_tag_recognized [] 1 1 rfl legacyHeader 0
